import Mathlib

/-!
Verification development for the hierarchical extraction engine of the
xtractor repository (`app/parser.py`, class `PDFExtractor`).

The engine walks per-page table rows and free-text lines, classifies them,
maintains cursor state (current state / current LGA, plus three seen-key
sets) and accumulates three flat lists of records (`states`, `lgas`,
`wards`).  Every definition below is a direct shallow embedding of the
corresponding Python method; Python strings are modelled as `List Char`
(the source data is ASCII), Python's `set` membership as membership in the
list of keys inserted so far, and Python `dict` records as structures.

The float thresholds in `_is_state_header` (`len * 0.8`, `len * 0.7`) are
modelled by the exact rational comparisons `5*u > 4*n` and `10*l > 7*n`;
for every line length `n ≤ 40` (the only lengths that reach the ratio
test) and every count value these agree with the IEEE-754 double
comparisons the Python code performs.
-/

namespace Xtractor

/-- Python strings, modelled as their list of characters. -/
abbrev Str := List Char

/-- Python `str.strip()` with no argument: remove leading and trailing
whitespace. -/
def pyStrip (s : Str) : Str :=
  ((s.dropWhile Char.isWhitespace).reverse.dropWhile Char.isWhitespace).reverse

/-- Python `str.upper()` (ASCII fragment). -/
def pyUpper (s : Str) : Str := s.map Char.toUpper

/-- Python `str.isdigit()` (ASCII fragment): nonempty and all digits. -/
def pyIsDigit (s : Str) : Bool := !s.isEmpty && s.all Char.isDigit

/-- Python `str.isalnum()` (ASCII fragment): nonempty and all alphanumeric. -/
def pyIsAlnum (s : Str) : Bool := !s.isEmpty && s.all Char.isAlphanum

/-- Python `str.split()` with no argument: split on whitespace runs,
dropping empty words.  Auxiliary recursion carrying the reversed current
word. -/
def pySplitAux : Str → Str → List Str
  | [], acc => if acc.isEmpty then [] else [acc.reverse]
  | c :: rest, acc =>
    if c.isWhitespace then
      if acc.isEmpty then pySplitAux rest [] else acc.reverse :: pySplitAux rest []
    else
      pySplitAux rest (c :: acc)

/-- Python `name.split()`. -/
def pySplit (s : Str) : List Str := pySplitAux s []

/-- Python `text.split('\n')`: split on every newline, keeping empty
parts. -/
def pySplitNl : Str → List Str
  | [] => [[]]
  | c :: rest =>
    let r := pySplitNl rest
    if c = '\n' then [] :: r else (c :: r.headD []) :: r.tail

/-- Python `pat in s` substring test (for nonempty `pat`). -/
def pyContains : Str → Str → Bool
  | [], pat => pat.isEmpty
  | c :: rest, pat => pat.isPrefixOf (c :: rest) || pyContains rest pat

/-- Python `s.replace(pat, rep)` for a nonempty `pat`: replace every
(left-to-right, non-overlapping) occurrence.  Fuel-based structural
recursion; the fuel `s.length` never runs out because every step consumes
at least one character of `s`. -/
def pyReplaceFuel : Nat → Str → Str → Str → Str
  | _, [], _, _ => []
  | 0, s, _, _ => s
  | n + 1, c :: rest, pat, rep =>
    if !pat.isEmpty && pat.isPrefixOf (c :: rest) then
      rep ++ pyReplaceFuel n ((c :: rest).drop pat.length) pat rep
    else
      c :: pyReplaceFuel n rest pat rep

/-- Python `s.replace(pat, rep)`. -/
def pyReplace (s pat rep : Str) : Str := pyReplaceFuel s.length s pat rep

/-- Python `' '.join(row)`. -/
def pyJoinSpace : List Str → Str
  | [] => []
  | [s] => s
  | s :: rest => s ++ ' ' :: pyJoinSpace rest

/-- Literal helper: the characters of a Lean string literal. -/
def lit (s : String) : Str := s.data

/-- The module-level reference list `NIGERIAN_STATES` of `app/parser.py`
(alphabetical, with the source's spellings, including the "LARABA"
entry). -/
def NIGERIAN_STATES : List Str :=
  [lit "ABIA", lit "ADAMAWA", lit "AKWA IBOM", lit "ANAMBRA", lit "BAUCHI",
   lit "BAYELSA", lit "BENUE", lit "BORNO", lit "CROSS RIVER", lit "DELTA",
   lit "EBONYI", lit "EDO", lit "EKITI", lit "ENUGU", lit "FCT", lit "GOMBE",
   lit "IMO", lit "JIGAWA", lit "KADUNA", lit "KANO", lit "KATSINA",
   lit "KEBBI", lit "KOGI", lit "KWARA", lit "LAGOS", lit "LARABA",
   lit "NASARAWA", lit "NIGER", lit "OGUN", lit "ONDO", lit "OSUN",
   lit "OYO", lit "PLATEAU", lit "RIVERS", lit "SOKOTO", lit "TARABA",
   lit "YOBE", lit "ZAMFARA"]

/-- A state record, as built by `_add_state`: `{"name": ..., "code": ...}`. -/
structure StateRec where
  name : Str
  code : Str
deriving DecidableEq

/-- An LGA record, as built by `_add_lga`: carries a back-reference to the
owning state's name. -/
structure LgaRec where
  name : Str
  code : Str
  state : Str
deriving DecidableEq

/-- A ward record, as built by `_add_ward`: carries back-references to the
owning LGA's and state's names. -/
structure WardRec where
  name : Str
  code : Str
  lga : Str
  state : Str
deriving DecidableEq

/-- The `extracted_data` dictionary: three flat, parallel lists. -/
structure ExtractedData where
  states : List StateRec
  lgas : List LgaRec
  wards : List WardRec
deriving DecidableEq

/-- The mutable fields of `PDFExtractor`: the output dictionary, the two
cursor references and the three seen-key sets (modelled as the list of
keys inserted so far). -/
structure ExtractorState where
  extracted : ExtractedData
  current_state : Option StateRec
  current_lga : Option LgaRec
  seen_states : List Str
  seen_lgas : List Str
  seen_wards : List Str
deriving DecidableEq

/-- State of a freshly constructed `PDFExtractor` (`__init__`). -/
def initState : ExtractorState :=
  { extracted := { states := [], lgas := [], wards := [] }
    current_state := none
    current_lga := none
    seen_states := []
    seen_lgas := []
    seen_wards := [] }

/-- `_looks_like_code`: pure digits of length at most 5, or alphanumeric
of length at most 5 containing at least one digit. -/
def looks_like_code (text : Str) : Bool :=
  if text.isEmpty then false
  else
    let t := pyStrip text
    if pyIsDigit t then decide (t.length ≤ 5)
    else if pyIsAlnum t && decide (t.length ≤ 5) then
      decide ((t.filter Char.isDigit).length > 0)
    else false

/-- `_is_new_lga`: the row names a different LGA than the current one
(case-insensitive on the name, exact on the code). -/
def is_new_lga (st : ExtractorState) (name code : Str) : Bool :=
  match st.current_lga with
  | none => true
  | some l => !(pyUpper l.name = pyUpper name ∧ l.code = code)

/-- `_generate_code`: concatenate the upper-cased first character of every
whitespace-separated word; fall back to `"XX"` when that is empty. -/
def generate_code (name : Str) : Str :=
  let code := ((pySplit name).map (fun w => pyUpper (w.take 1))).flatten
  if code.isEmpty then lit "XX" else code

/-- Seen-set key used by `_add_lga`:
`f"{state_name.upper()}_{lga_name.upper()}"`. -/
def lgaKey (stateName lgaName : Str) : Str :=
  pyUpper stateName ++ '_' :: pyUpper lgaName

/-- Seen-set key used by `_add_ward`. -/
def wardKey (stateName lgaName wardName : Str) : Str :=
  pyUpper stateName ++ '_' :: pyUpper lgaName ++ '_' :: pyUpper wardName

/-- `_add_state`: dedup on the upper-cased name; on a fresh key append the
record, make it current and reset the current LGA.  On an already-seen key
the method returns immediately (no cursor update). -/
def add_state (st : ExtractorState) (name code : Str) : ExtractorState :=
  let key := pyUpper name
  if key ∈ st.seen_states then st
  else
    let s : StateRec := { name := name, code := if code.isEmpty then generate_code name else code }
    { st with
      extracted := { st.extracted with states := st.extracted.states ++ [s] }
      current_state := some s
      current_lga := none
      seen_states := st.seen_states ++ [key] }

/-- `_add_lga`: requires a current state; dedup on the composite
state+name key.  On an already-seen key, re-point `current_lga` at the
first stored LGA whose upper-cased name matches and whose state
back-reference equals the current state's name.  On a fresh key append a
new record and make it current. -/
def add_lga (st : ExtractorState) (name code : Str) : ExtractorState :=
  match st.current_state with
  | none => st
  | some cs =>
    let key := lgaKey cs.name name
    if key ∈ st.seen_lgas then
      match st.extracted.lgas.find? (fun l => pyUpper l.name = pyUpper name ∧ l.state = cs.name) with
      | some l => { st with current_lga := some l }
      | none => st
    else
      let l : LgaRec :=
        { name := name
          code := if code.isEmpty then generate_code name else code
          state := cs.name }
      { st with
        extracted := { st.extracted with lgas := st.extracted.lgas ++ [l] }
        current_lga := some l
        seen_lgas := st.seen_lgas ++ [key] }

/-- `_add_ward`: requires both a current LGA and a current state; dedup on
the composite state+LGA+name key; never touches the cursors. -/
def add_ward (st : ExtractorState) (name code : Str) : ExtractorState :=
  match st.current_lga with
  | none => st
  | some cl =>
    match st.current_state with
    | none => st
    | some cs =>
      let key := wardKey cs.name cl.name name
      if key ∈ st.seen_wards then st
      else
        let w : WardRec :=
          { name := name
            code := if code.isEmpty then generate_code name else code
            lga := cl.name
            state := cs.name }
        { st with
          extracted := { st.extracted with wards := st.extracted.wards ++ [w] }
          seen_wards := st.seen_wards ++ [key] }

/-- `_detect_lga_ward_data`: requires a current state; re-strips and
drops empty cells; a 2-cell row `[name, code]` becomes an LGA when there
is no current LGA or the pair differs from it, otherwise a ward; a row of
3 or more cells is routed by the positions of its plausible codes.  (The
source also computes a `ward_code_idx` in the two-codes branch but never
reads it; that dead code is omitted.) -/
def detect_lga_ward_data (st : ExtractorState) (cells0 : List Str) : ExtractorState :=
  match st.current_state with
  | none => st
  | some _ =>
    let cells := (cells0.map pyStrip).filter (fun c => !c.isEmpty)
    if cells.length < 2 then st
    else if cells.length = 2 then
      let name := cells.getD 0 []
      let code := cells.getD 1 []
      if looks_like_code code then
        if st.current_lga.isNone || is_new_lga st name code then
          add_lga st name code
        else
          add_ward st name code
      else st
    else
      let codeIdxs := (List.range cells.length).filter (fun i => looks_like_code (cells.getD i []))
      if codeIdxs.length ≥ 2 then
        let lga_name := cells.getD 0 []
        let lga_code := if looks_like_code (cells.getD 1 []) then cells.getD 1 [] else []
        let st1 := if !lga_code.isEmpty then add_lga st lga_name lga_code else st
        if cells.length ≥ 4 then
          let ward_name := cells.getD 2 []
          let ward_code := cells.getD 3 []
          if !ward_name.isEmpty && !ward_code.isEmpty then add_ward st1 ward_name ward_code
          else st1
        else st1
      else if codeIdxs.length = 1 then
        let idx := codeIdxs.getD 0 0
        if idx ≤ 1 then add_lga st (cells.getD 0 []) (cells.getD idx [])
        else add_ward st (cells.getD 0 []) (cells.getD idx [])
      else st

/-- `_parse_table_row`: drop empty cells, require at least 2, require one
of the last two cells to satisfy the lenient code test (`isdigit` of any
length, or alphanumeric of length at most 5 with no digit requirement),
then hand the non-empty cells to `_detect_lga_ward_data`. -/
def parse_table_row (st : ExtractorState) (row : List Str) : ExtractorState :=
  let nonEmpty := row.filter (fun c => !c.isEmpty)
  if nonEmpty.length < 2 then st
  else
    let lastTwo := nonEmpty.drop (nonEmpty.length - 2)
    let hasCode := lastTwo.any (fun c => pyIsDigit c || (pyIsAlnum c && decide (c.length ≤ 5)))
    if !hasCode then st
    else detect_lga_ward_data st nonEmpty

/-- Keyword set of `_is_table_header`. -/
def headerKeywords : List Str :=
  [lit "LGA NAME", lit "WARD NAME", lit "WARD CODE", lit "LGA CODE", lit "CODE"]

/-- `_is_table_header`: the upper-cased space-joined row text contains at
least two of the header keywords. -/
def is_table_header (row : List Str) : Bool :=
  let rowText := pyUpper (pyJoinSpace row)
  decide ((headerKeywords.filter (fun kw => pyContains rowText kw)).length ≥ 2)

/-- `_is_state_header`: length between 3 and 40, more than 80 percent of
the characters upper-case and more than 70 percent alphabetic-or-space.
The exact rational comparisons used here agree with the source's float
comparisons for every length up to 40.  The function performs no digit
check and never consults `NIGERIAN_STATES`. -/
def is_state_header (line : Str) : Bool :=
  if line.length > 40 || line.length < 3 then false
  else
    let upper_count := (line.filter Char.isUpper).length
    let letter_count := (line.filter (fun c => c.isAlpha || c.isWhitespace)).length
    decide (5 * upper_count > 4 * line.length) &&
      decide (10 * letter_count > 7 * line.length)

/-- Name extracted from a banner line by `_process_state_line`:
`line.replace('STATE:', '').replace('State:', '').strip()`. -/
def bannerName (line : Str) : Str :=
  pyStrip (pyReplace (pyReplace line (lit "STATE:") []) (lit "State:") [])

/-- `_process_state_line`: strip the `STATE:` / `State:` markers and add
the remaining text as a state (with no explicit code). -/
def process_state_line (st : ExtractorState) (line : Str) : ExtractorState :=
  add_state st (bannerName line) []

/-- One iteration of the row loop of `_extract_table_data`: skip empty
rows, clean the cells (`str(cell).strip() if cell else ''`), skip header
rows, parse the rest. -/
def process_row (st : ExtractorState) (row : List (Option Str)) : ExtractorState :=
  if row.isEmpty || row.all (fun c => c = none || c = some []) then st
  else
    let clean := row.map (fun c => match c with
      | none => []
      | some s => if s.isEmpty then [] else pyStrip s)
    if is_table_header clean then st
    else parse_table_row st clean

/-- One iteration of the line loop of `_extract_text_data`: strip, skip
short lines, process recognized state headers. -/
def process_line (st : ExtractorState) (line0 : Str) : ExtractorState :=
  let line := pyStrip line0
  if line.isEmpty || line.length < 2 then st
  else if is_state_header line then process_state_line st line
  else st

/-- A unit of work fed to the engine: one table row or one text line. -/
inductive Event where
  | row (cells : List (Option Str))
  | line (text : Str)
deriving DecidableEq

/-- Process one event. -/
def step (st : ExtractorState) : Event → ExtractorState
  | .row r => process_row st r
  | .line l => process_line st l

/-- Process a sequence of events in order. -/
def runEvents (st : ExtractorState) (es : List Event) : ExtractorState :=
  es.foldl step st

/-- One page, as handed to `_process_page` by the external reader: its
tables (each a list of rows of optional cells) and its text (optional, as
`extract_text` may return nothing). -/
structure Page where
  tables : List (List (List (Option Str)))
  text : Option Str

/-- Events of one page: all table rows first, then the text lines
(`_process_page` processes tables before text; a falsy text is skipped). -/
def pageEvents (p : Page) : List Event :=
  (p.tables.flatten.map Event.row) ++
    (match p.text with
     | none => []
     | some t => if t.isEmpty then [] else (pySplitNl t).map Event.line)

/-- `extract_all`: process every page in order and return the
`extracted_data` dictionary. -/
def extract_all (pages : List Page) : ExtractedData :=
  (runEvents initState (pages.map pageEvents).flatten).extracted

/-- The counting fields of `get_statistics` (the source also attaches a
wall-clock `extraction_time` string, which is effectful and carries no
information about the extracted data). -/
structure Statistics where
  total_states : Nat
  total_lgas : Nat
  total_wards : Nat
deriving DecidableEq

/-- `get_statistics`: the raw lengths of the three flat lists. -/
def get_statistics (st : ExtractorState) : Statistics :=
  { total_states := st.extracted.states.length
    total_lgas := st.extracted.lgas.length
    total_wards := st.extracted.wards.length }

/-- Boolean test: the event is a table row (not a text line). -/
def eventIsRow : Event → Bool
  | .row _ => true
  | .line _ => false

/-- Classification of a pure Level3 (ward-only) row, grounded in the
routing of `_detect_lga_ward_data`: at least 3 non-empty cells and either
exactly one plausible code sitting at index 2 or later, or two or more
plausible codes with the second cell not a plausible code (so no LGA part
is extracted) — exactly the rows the method routes only to `_add_ward`. -/
def level3Shaped (cells : List Str) : Bool :=
  decide (cells.length ≥ 3) &&
    (let idxs := (List.range cells.length).filter (fun i => looks_like_code (cells.getD i []))
     (decide (idxs.length = 1) && decide (2 ≤ idxs.getD 0 0)) ||
       (decide (2 ≤ idxs.length) && !looks_like_code (cells.getD 1 [])))

/-- Fallback code as the specification words it: the concatenation of the
upper-cased first characters of the name's whitespace-separated words, or
the sentinel `"XX"` when there are no usable words. -/
def fallback_initials (name : Str) : Str :=
  match pySplit name with
  | [] => lit "XX"
  | ws => ws.map (fun w => (w.headD ' ').toUpper)

/-- A banner line establishing the state `ALPHA`. -/
def bannerAlpha : Event := Event.line (lit "ALPHA")

/-- A two-cell LGA row `["LGA1", "01"]`. -/
def rowLga1 : Event := Event.row [some (lit "LGA1"), some (lit "01")]

/-- Extractor state after processing just the `ALPHA` banner. -/
def stAlpha : ExtractorState := runEvents initState [bannerAlpha]

/-- Five two-cell Level2 rows carrying the code sequence
`[01, 02, 03, 01, 02]`, with no banner lines. -/
def c1_rows : List Event :=
  [Event.row [some (lit "L1"), some (lit "01")],
   Event.row [some (lit "L2"), some (lit "02")],
   Event.row [some (lit "L3"), some (lit "03")],
   Event.row [some (lit "L4"), some (lit "01")],
   Event.row [some (lit "L5"), some (lit "02")]]

/-- One page carrying only the `ALPHA` banner. -/
def c2_pages_small : List Page := [{ tables := [], text := some (lit "ALPHA") }]

/-- The same banner page followed by a page with one LGA+ward table row. -/
def c2_pages_large : List Page :=
  [{ tables := [], text := some (lit "ALPHA") },
   { tables := [[[some (lit "LGA1"), some (lit "01"), some (lit "WARD1"), some (lit "02")]]],
     text := none }]

/-- Banner `ALPHA`, an LGA row under it, then the banner `ALPHA` again. -/
def c3_events : List Event := [bannerAlpha, rowLga1, bannerAlpha]

/-- Banners `ALPHA`, `BETA`, then `ALPHA` again. -/
def c3_events_cursor : List Event :=
  [Event.line (lit "ALPHA"), Event.line (lit "BETA"), Event.line (lit "ALPHA")]

/-- Banners `ALPHA` and `BETA`, then one LGA row (landing under `BETA`). -/
def c5_events : List Event :=
  [Event.line (lit "ALPHA"), Event.line (lit "BETA"), rowLga1]

/-- Banner `ALPHA` followed by a combined LGA+ward table row. -/
def c6_events : List Event :=
  [bannerAlpha,
   Event.row [some (lit "LGA1"), some (lit "01"), some (lit "WARD1"), some (lit "02")]]

/-- A ward-shaped row: three cells with a single plausible code at the
last position. -/
def c7_cells : List Str := [lit "WARDX", lit "ZZ", lit "01"]

/-! Well-formedness invariant of the extractor state, and its preservation
by every operation of the engine. -/

/-- Invariant maintained by `PDFExtractor` across all mutations: the
cursors point at stored records, the current LGA's back-reference agrees
with the current state, every stored record's key is in the corresponding
seen-set, keys are unique within each list, and every back-reference
resolves to a stored parent record. -/
structure WF (st : ExtractorState) : Prop where
  cs_mem : ∀ s, st.current_state = some s → s ∈ st.extracted.states
  cl_mem : ∀ l, st.current_lga = some l → l ∈ st.extracted.lgas
  cl_state : ∀ l, st.current_lga = some l → ∃ s, st.current_state = some s ∧ l.state = s.name
  st_seen : ∀ s ∈ st.extracted.states, pyUpper s.name ∈ st.seen_states
  lg_seen : ∀ l ∈ st.extracted.lgas, lgaKey l.state l.name ∈ st.seen_lgas
  st_uniq : st.extracted.states.Pairwise (fun a b => pyUpper a.name ≠ pyUpper b.name)
  lg_uniq : st.extracted.lgas.Pairwise
    (fun a b => ¬(pyUpper a.name = pyUpper b.name ∧ pyUpper a.state = pyUpper b.state))
  lg_parent : ∀ l ∈ st.extracted.lgas, ∃ s ∈ st.extracted.states, s.name = l.state
  wd_parent : ∀ w ∈ st.extracted.wards, ∃ l ∈ st.extracted.lgas, l.name = w.lga ∧ l.state = w.state

lemma wf_init : WF initState := by
  constructor <;> simp [initState]

lemma wf_add_state {st : ExtractorState} (h : WF st) (name code : Str) :
    WF (add_state st name code) := by
  simp only [add_state]
  split
  · exact h
  · next hfresh =>
    constructor
    · intro s hs
      simp only [Option.some.injEq] at hs
      subst hs
      exact List.mem_append_right _ (List.mem_singleton_self _)
    · intro l hl
      exact absurd hl (by simp)
    · intro l hl
      exact absurd hl (by simp)
    · intro s hs
      rcases List.mem_append.mp hs with hs | hs
      · exact List.mem_append_left _ (h.st_seen s hs)
      · simp only [List.mem_singleton] at hs
        subst hs
        exact List.mem_append_right _ (List.mem_singleton_self _)
    · exact h.lg_seen
    · refine List.pairwise_append.mpr ⟨h.st_uniq, List.pairwise_singleton _ _, ?_⟩
      intro a ha b hb
      simp only [List.mem_singleton] at hb
      subst hb
      intro heq
      exact hfresh (heq ▸ h.st_seen a ha)
    · exact h.lg_uniq
    · intro l hl
      obtain ⟨s, hs, hname⟩ := h.lg_parent l hl
      exact ⟨s, List.mem_append_left _ hs, hname⟩
    · exact h.wd_parent

lemma wf_add_lga {st : ExtractorState} (h : WF st) (name code : Str) :
    WF (add_lga st name code) := by
  simp only [add_lga]
  cases hcs : st.current_state with
  | none => exact h
  | some cs =>
    simp only []
    split
    · next hseen =>
      split
      · next l hfind =>
        have hl : l ∈ st.extracted.lgas := List.mem_of_find?_eq_some hfind
        have hp := List.find?_some hfind
        simp only [decide_eq_true_eq] at hp
        constructor
        · intro s hs; exact h.cs_mem s (hcs.trans hs)
        · intro l' hl'
          simp only [Option.some.injEq] at hl'
          subst hl'
          exact hl
        · intro l' hl'
          simp only [Option.some.injEq] at hl'
          subst hl'
          exact ⟨cs, rfl, hp.2⟩
        · exact h.st_seen
        · exact h.lg_seen
        · exact h.st_uniq
        · exact h.lg_uniq
        · exact h.lg_parent
        · exact h.wd_parent
      · exact h
    · next hfresh =>
      constructor
      · intro s hs; exact h.cs_mem s (hcs.trans hs)
      · intro l hl
        simp only [Option.some.injEq] at hl
        subst hl
        exact List.mem_append_right _ (List.mem_singleton_self _)
      · intro l hl
        simp only [Option.some.injEq] at hl
        subst hl
        exact ⟨cs, rfl, rfl⟩
      · exact h.st_seen
      · intro l hl
        rcases List.mem_append.mp hl with hl | hl
        · exact List.mem_append_left _ (h.lg_seen l hl)
        · simp only [List.mem_singleton] at hl
          subst hl
          exact List.mem_append_right _ (List.mem_singleton_self _)
      · exact h.st_uniq
      · refine List.pairwise_append.mpr ⟨h.lg_uniq, List.pairwise_singleton _ _, ?_⟩
        intro a ha b hb
        simp only [List.mem_singleton] at hb
        subst hb
        rintro ⟨hn, hs⟩
        apply hfresh
        have : lgaKey a.state a.name = lgaKey cs.name name := by
          simp only [lgaKey]
          rw [hn, hs]
        exact this ▸ h.lg_seen a ha
      · intro l hl
        rcases List.mem_append.mp hl with hl | hl
        · exact h.lg_parent l hl
        · simp only [List.mem_singleton] at hl
          subst hl
          exact ⟨cs, h.cs_mem cs hcs, rfl⟩
      · intro w hw
        obtain ⟨l, hl, hmatch⟩ := h.wd_parent w hw
        exact ⟨l, List.mem_append_left _ hl, hmatch⟩

lemma wf_add_ward {st : ExtractorState} (h : WF st) (name code : Str) :
    WF (add_ward st name code) := by
  simp only [add_ward]
  cases hcl : st.current_lga with
  | none => exact h
  | some cl =>
    cases hcs : st.current_state with
    | none => exact h
    | some cs =>
      simp only []
      split
      · exact h
      · constructor
        · intro s hs; exact h.cs_mem s (hcs.trans hs)
        · intro l hl; exact h.cl_mem l (hcl.trans hl)
        · intro l hl
          obtain ⟨s, hs, hstate⟩ := h.cl_state l (hcl.trans hl)
          exact ⟨s, hcs.symm.trans hs, hstate⟩
        · exact h.st_seen
        · exact h.lg_seen
        · exact h.st_uniq
        · exact h.lg_uniq
        · exact h.lg_parent
        · intro w hw
          rcases List.mem_append.mp hw with hw | hw
          · exact h.wd_parent w hw
          · simp only [List.mem_singleton] at hw
            subst hw
            refine ⟨cl, h.cl_mem cl hcl, rfl, ?_⟩
            obtain ⟨s, hs, hstate⟩ := h.cl_state cl hcl
            rw [hcs] at hs
            simp only [Option.some.injEq] at hs
            subst hs
            exact hstate

lemma wf_detect {st : ExtractorState} (h : WF st) (cells : List Str) :
    WF (detect_lga_ward_data st cells) := by
  simp only [detect_lga_ward_data]
  cases st.current_state with
  | none => exact h
  | some cs =>
    repeat' split
    all_goals
      first
        | exact h
        | exact wf_add_lga h _ _
        | exact wf_add_ward h _ _
        | exact wf_add_ward (wf_add_lga h _ _) _ _

lemma wf_parse_table_row {st : ExtractorState} (h : WF st) (row : List Str) :
    WF (parse_table_row st row) := by
  simp only [parse_table_row]
  repeat' split
  all_goals first | exact h | exact wf_detect h _

lemma wf_process_row {st : ExtractorState} (h : WF st) (row : List (Option Str)) :
    WF (process_row st row) := by
  simp only [process_row]
  repeat' split
  all_goals first | exact h | exact wf_parse_table_row h _

lemma wf_process_line {st : ExtractorState} (h : WF st) (line : Str) :
    WF (process_line st line) := by
  simp only [process_line, process_state_line]
  repeat' split
  all_goals first | exact h | exact wf_add_state h _ _

lemma wf_step {st : ExtractorState} (h : WF st) (e : Event) : WF (step st e) := by
  cases e with
  | row r => exact wf_process_row h r
  | line l => exact wf_process_line h l

lemma wf_runEvents {st : ExtractorState} (h : WF st) (es : List Event) :
    WF (runEvents st es) := by
  induction es generalizing st with
  | nil => exact h
  | cons e t ih => exact ih (wf_step h e)

/-! Helper lemmas: with no current state the engine drops every table row
unchanged, and with no current LGA `_add_ward` is a no-op. -/

lemma add_ward_no_lga (st : ExtractorState) (name code : Str)
    (h : st.current_lga = none) : add_ward st name code = st := by
  simp only [add_ward, h]

lemma detect_no_state (st : ExtractorState) (cells : List Str)
    (h : st.current_state = none) : detect_lga_ward_data st cells = st := by
  simp only [detect_lga_ward_data, h]

lemma process_row_no_state (st : ExtractorState) (row : List (Option Str))
    (h : st.current_state = none) : process_row st row = st := by
  simp only [process_row, parse_table_row]
  repeat' split
  all_goals first | rfl | exact detect_no_state st _ h

lemma runEvents_rows_only (st : ExtractorState) (h : st.current_state = none)
    (es : List Event) (hr : es.all eventIsRow = true) : runEvents st es = st := by
  induction es with
  | nil => rfl
  | cons e t ih =>
    simp only [List.all_cons, Bool.and_eq_true] at hr
    obtain ⟨he, ht⟩ := hr
    cases e with
    | row r =>
      have hstep : step st (Event.row r) = st := process_row_no_state st r h
      show runEvents (step st (Event.row r)) t = st
      rw [hstep]
      exact ih ht
    | line l => simp [eventIsRow] at he

/-! Helper lemmas describing single operations of the engine. -/

lemma add_ward_fields (st : ExtractorState) (name code : Str) :
    (add_ward st name code).extracted.lgas = st.extracted.lgas ∧
    (add_ward st name code).current_lga = st.current_lga ∧
    (add_ward st name code).extracted.states = st.extracted.states ∧
    (add_ward st name code).current_state = st.current_state := by
  simp only [add_ward]
  repeat' split
  all_goals exact ⟨rfl, rfl, rfl, rfl⟩

lemma find?_append_left_none {α : Type} (p : α → Bool) (L rest : List α)
    (h : ∀ a ∈ L, p a = false) : (L ++ rest).find? p = rest.find? p := by
  induction L with
  | nil => rfl
  | cons a t ih =>
    rw [List.cons_append, List.find?_cons_of_neg _ (by simp [h a (List.mem_cons_self a t)]),
      ih (fun b hb => h b (List.mem_cons_of_mem a hb))]

lemma add_lga_seen (st : ExtractorState) (s : StateRec) (e : LgaRec) (name code : Str)
    (hcs : st.current_state = some s)
    (hkey : lgaKey s.name name ∈ st.seen_lgas)
    (hfind : st.extracted.lgas.find?
      (fun l => decide (pyUpper l.name = pyUpper name ∧ l.state = s.name)) = some e) :
    add_lga st name code = { st with current_lga := some e } := by
  simp only [add_lga, hcs]
  rw [if_pos hkey, hfind]

lemma two_cell_clean (name code : Str)
    (hnt : pyStrip name = name) (hne : name ≠ [])
    (hct : pyStrip code = code) (hce : code ≠ []) :
    (([name, code].map pyStrip).filter (fun c => !c.isEmpty)) = [name, code] := by
  have h1 : name.isEmpty = false := by
    cases name with
    | nil => exact absurd rfl hne
    | cons a t => rfl
  have h2 : code.isEmpty = false := by
    cases code with
    | nil => exact absurd rfl hce
    | cons a t => rfl
  simp [hnt, hct, h1, h2]

lemma detect_pair_fresh (st : ExtractorState) (s : StateRec) (name code : Str)
    (hcs : st.current_state = some s)
    (hcl : st.current_lga = none)
    (hlooks : looks_like_code code = true)
    (hnt : pyStrip name = name) (hne : name ≠ [])
    (hct : pyStrip code = code) (hce : code ≠ [])
    (hfresh : lgaKey s.name name ∉ st.seen_lgas) :
    detect_lga_ward_data st [name, code] =
      { st with
        extracted := { st.extracted with
          lgas := st.extracted.lgas ++ [{ name := name, code := code, state := s.name }] }
        current_lga := some { name := name, code := code, state := s.name }
        seen_lgas := st.seen_lgas ++ [lgaKey s.name name] } := by
  have h2 : code.isEmpty = false := by
    cases code with
    | nil => exact absurd rfl hce
    | cons a t => rfl
  simp only [detect_lga_ward_data, hcs]
  rw [two_cell_clean name code hnt hne hct hce]
  rw [if_neg (by simp), if_pos (by simp)]
  simp only [List.getD_cons_zero, List.getD_cons_succ]
  rw [if_pos hlooks, if_pos (by simp [hcl])]
  simp only [add_lga, hcs]
  rw [if_neg hfresh]
  simp [h2]

lemma detect_pair_ward (st : ExtractorState) (s : StateRec) (e : LgaRec) (name code : Str)
    (hcs : st.current_state = some s)
    (hcl : st.current_lga = some e)
    (hename : pyUpper e.name = pyUpper name) (hecode : e.code = code)
    (hlooks : looks_like_code code = true)
    (hnt : pyStrip name = name) (hne : name ≠ [])
    (hct : pyStrip code = code) (hce : code ≠ []) :
    detect_lga_ward_data st [name, code] = add_ward st name code := by
  simp only [detect_lga_ward_data, hcs]
  rw [two_cell_clean name code hnt hne hct hce]
  rw [if_neg (by simp), if_pos (by simp)]
  simp only [List.getD_cons_zero, List.getD_cons_succ]
  rw [if_pos hlooks, if_neg (by simp [hcl, is_new_lga, hename, hecode])]

lemma detect_pair_renew (st : ExtractorState) (s : StateRec) (name code : Str)
    (hcs : st.current_state = some s)
    (hnew : is_new_lga st name code = true)
    (hlooks : looks_like_code code = true)
    (hnt : pyStrip name = name) (hne : name ≠ [])
    (hct : pyStrip code = code) (hce : code ≠ []) :
    detect_lga_ward_data st [name, code] = add_lga st name code := by
  simp only [detect_lga_ward_data, hcs]
  rw [two_cell_clean name code hnt hne hct hce]
  rw [if_neg (by simp), if_pos (by simp)]
  simp only [List.getD_cons_zero, List.getD_cons_succ]
  rw [if_pos hlooks, if_pos (by simp [hnew])]

/-! Counting helpers used for the statistics claim. -/

lemma sum_map_add {α : Type} (f g : α → Nat) (l : List α) :
    (l.map (fun x => f x + g x)).sum = (l.map f).sum + (l.map g).sum := by
  induction l with
  | nil => rfl
  | cons a t ih =>
    simp only [List.map_cons, List.sum_cons, ih]
    omega

lemma countP_eq_sum_map {α : Type} (p : α → Bool) (l : List α) :
    l.countP p = (l.map (fun x => if p x then 1 else 0)).sum := by
  induction l with
  | nil => rfl
  | cons a t ih =>
    rw [List.countP_cons]
    simp only [List.map_cons, List.sum_cons, ih]
    omega

lemma sum_map_one {α : Type} (l : List α) : (l.map (fun _ => 1)).sum = l.length := by
  induction l with
  | nil => rfl
  | cons a t ih =>
    simp only [List.map_cons, List.sum_cons, ih, List.length_cons]
    omega

lemma sum_countP_swap (S : List StateRec) (L : List LgaRec) :
    (S.map (fun s => L.countP (fun l => decide (l.state = s.name)))).sum
      = (L.map (fun l => S.countP (fun s => decide (l.state = s.name)))).sum := by
  induction L with
  | nil => simp [List.countP_nil]
  | cons l t ih =>
    have hstep : (S.map (fun s => (l :: t).countP (fun x => decide (x.state = s.name)))).sum
        = (S.map (fun s => t.countP (fun x => decide (x.state = s.name)))).sum
          + (S.map (fun s => if decide (l.state = s.name) then 1 else 0)).sum := by
      rw [← sum_map_add]
      exact congrArg List.sum
        (List.map_congr_left (fun s _ => List.countP_cons (fun x => decide (x.state = s.name)) l t))
    rw [hstep, ih, ← countP_eq_sum_map]
    simp only [List.map_cons, List.sum_cons]
    omega

lemma countP_states_eq_one (S : List StateRec) (x : Str)
    (huniq : S.Pairwise (fun a b => pyUpper a.name ≠ pyUpper b.name))
    (hex : ∃ s ∈ S, s.name = x) :
    S.countP (fun s => decide (x = s.name)) = 1 := by
  induction S with
  | nil =>
    obtain ⟨s, hs, _⟩ := hex
    cases hs
  | cons a t ih =>
    obtain ⟨hhead, htail⟩ := List.pairwise_cons.mp huniq
    rw [List.countP_cons]
    by_cases hax : x = a.name
    · have h0 : t.countP (fun s => decide (x = s.name)) = 0 := by
        apply List.countP_eq_zero.mpr
        intro s hs hps
        simp only [decide_eq_true_eq] at hps
        exact hhead s hs (by rw [← hps, ← hax])
      rw [h0]
      simp [hax]
    · have hcond : (decide (x = a.name)) = false := by simp [hax]
      rw [hcond]
      simp only [Bool.false_eq_true, if_false, Nat.add_zero]
      apply ih htail
      obtain ⟨s, hs, hsx⟩ := hex
      rcases List.mem_cons.mp hs with hs | hs
      · exact absurd (hs ▸ hsx).symm hax
      · exact ⟨s, hs, hsx⟩

/-! Helpers for the fallback-code claim. -/

lemma pySplitAux_ne_nil : ∀ (s : Str) (acc : Str), ∀ w ∈ pySplitAux s acc, w ≠ [] := by
  intro s
  induction s with
  | nil =>
    intro acc w hw
    simp only [pySplitAux] at hw
    split at hw
    · cases hw
    · next hacc =>
      simp only [List.mem_singleton] at hw
      subst hw
      intro hnil
      apply hacc
      simp only [List.isEmpty_iff]
      rw [← List.reverse_reverse acc, hnil]
      rfl
  | cons c rest ih =>
    intro acc w hw
    simp only [pySplitAux] at hw
    split at hw
    · split at hw
      · exact ih [] w hw
      · next hacc =>
        rcases List.mem_cons.mp hw with hw | hw
        · subst hw
          intro hnil
          apply hacc
          simp only [List.isEmpty_iff]
          rw [← List.reverse_reverse acc, hnil]
          rfl
        · exact ih [] w hw
    · exact ih (c :: acc) w hw

lemma pySplit_ne_nil (s : Str) : ∀ w ∈ pySplit s, w ≠ [] :=
  pySplitAux_ne_nil s []

lemma flatten_initials (ws : List Str) (h : ∀ w ∈ ws, w ≠ []) :
    ((ws.map (fun w => pyUpper (w.take 1))).flatten) = ws.map (fun w => (w.headD ' ').toUpper) := by
  induction ws with
  | nil => rfl
  | cons w t ih =>
    obtain ⟨c, w', rfl⟩ : ∃ c w', w = c :: w' := by
      cases w with
      | nil => exact absurd rfl (h [] (List.mem_cons_self _ _))
      | cons c w' => exact ⟨c, w', rfl⟩
    have hone : pyUpper ((c :: w').take 1) = [c.toUpper] := rfl
    simp only [List.map_cons, List.flatten_cons, hone, List.singleton_append, List.headD_cons]
    exact congrArg (c.toUpper :: ·) (ih (fun x hx => h x (List.mem_cons_of_mem _ hx)))

lemma is_state_header_length {line : Str} (h : is_state_header line = true) :
    3 ≤ line.length ∧ line.length ≤ 40 := by
  unfold is_state_header at h
  split at h
  · exact absurd h (by simp)
  · next hcond =>
    simp only [Bool.or_eq_true, decide_eq_true_eq, not_or] at hcond
    omega

/-! Claim theorems. -/

/-- Claim C1, counterexample: feeding the five Level2 rows whose codes are
`[01, 02, 03, 01, 02]` with no banner lines does not produce Level1 `A`
with codes `[01,02,03]` and Level1 `B` with `[01,02]` — it produces no
Level1 and no Level2 records at all, because the engine has no
numeric-reset heuristic and never establishes a Level1 without a banner. -/
theorem C1_counterexample :
    (runEvents initState c1_rows).extracted.states = [] ∧
    (runEvents initState c1_rows).extracted.lgas = [] := by
  decide

/-- Claim C1 (corrected): the engine never advances the current Level1 on
a decrease of Level2 numeric codes — the reference ordering is not
consulted, and processing any sequence consisting only of table rows from
the initial state leaves the extractor state unchanged, because no
Level1 is ever current. -/
theorem C1_amended (es : List Event) (hr : es.all eventIsRow = true) :
    runEvents initState es = initState :=
  runEvents_rows_only initState rfl es hr

/-- Witness for C1 at the concrete code sequence `[01, 02, 03, 01, 02]`. -/
theorem C1_amended_witness : runEvents initState c1_rows = initState :=
  C1_amended c1_rows (by decide)

/-- Claim C2, counterexample: the value returned by `extract_all` is not a
nested document in which each Level1 entry carries its own Level2 list.
Two inputs whose outputs have identical `states` components have different
`lgas` components, so the Level2 records are not part of the Level1
entries; they live in a separate flat list whose entries carry a `state`
back-reference. -/
theorem C2_counterexample :
    (extract_all c2_pages_small).states = (extract_all c2_pages_large).states ∧
    (extract_all c2_pages_small).lgas ≠ (extract_all c2_pages_large).lgas ∧
    (extract_all c2_pages_large).lgas
      = [{ name := lit "LGA1", code := lit "01", state := lit "ALPHA" }] := by
  decide

/-- Claim C2 (corrected): `extract_all` returns three parallel flat lists
(`states`, `lgas`, `wards`); Level1 entries carry only a name and a code,
while every Level2 record carries a back-reference naming a stored Level1
and every Level3 record carries back-references naming a stored Level2 and
its Level1. -/
theorem C2_amended (pages : List Page) :
    (∀ l ∈ (extract_all pages).lgas,
       ∃ s ∈ (extract_all pages).states, s.name = l.state) ∧
    (∀ w ∈ (extract_all pages).wards,
       ∃ l ∈ (extract_all pages).lgas, l.name = w.lga ∧ l.state = w.state) := by
  have h := wf_runEvents wf_init ((pages.map pageEvents).flatten)
  exact ⟨h.lg_parent, h.wd_parent⟩

/-- Witness for C2 at a run containing one ward. -/
theorem C2_amended_witness :
    ∃ l ∈ (extract_all c2_pages_large).lgas,
      l.name = lit "LGA1" ∧ l.state = lit "ALPHA" :=
  (C2_amended c2_pages_large).2
    { name := lit "WARD1", code := lit "02", lga := lit "LGA1", state := lit "ALPHA" }
    (by decide)

/-- Claim C3, counterexample: a `RegionBanner` line naming an already-seen
Level1 does not update the cursor and does not reset the current Level2.
After `ALPHA`, an LGA row, and the banner `ALPHA` again, the current
Level2 is still the LGA (not null); after banners `ALPHA`, `BETA`,
`ALPHA`, the current Level1 is still `BETA` (not `ALPHA`). -/
theorem C3_counterexample :
    (runEvents initState c3_events).current_lga
      = some { name := lit "LGA1", code := lit "01", state := lit "ALPHA" } ∧
    (runEvents initState c3_events_cursor).current_state
      = some { name := lit "BETA", code := lit "B" } := by
  decide

/-- Claim C3 (corrected): a text line classified as a banner whose
normalized name is fresh is appended, made current, and resets the current
Level2 to null; but a banner naming an already-seen Level1 leaves the
whole extractor state unchanged — no duplicate is appended, and the
cursor is not updated either. -/
theorem C3_amended (st : ExtractorState) (line : Str)
    (hband : is_state_header (pyStrip line) = true) :
    (pyUpper (bannerName (pyStrip line)) ∉ st.seen_states →
      process_line st line =
        { st with
          extracted := { st.extracted with states := st.extracted.states ++
            [{ name := bannerName (pyStrip line),
               code := generate_code (bannerName (pyStrip line)) }] }
          current_state := some { name := bannerName (pyStrip line),
                                  code := generate_code (bannerName (pyStrip line)) }
          current_lga := none
          seen_states := st.seen_states ++ [pyUpper (bannerName (pyStrip line))] }) ∧
    (pyUpper (bannerName (pyStrip line)) ∈ st.seen_states → process_line st line = st) := by
  have hlen := is_state_header_length hband
  have hguard : ¬(((pyStrip line).isEmpty || decide ((pyStrip line).length < 2)) = true) := by
    simp only [Bool.or_eq_true, decide_eq_true_eq, List.isEmpty_iff]
    rintro (hnil | hlt)
    · rw [hnil] at hlen
      simp at hlen
    · omega
  simp only [process_line]
  rw [if_neg hguard, if_pos hband]
  simp only [process_state_line, add_state]
  constructor
  · intro hfresh
    rw [if_neg hfresh]
    rfl
  · intro hseen
    rw [if_pos hseen]

/-- Witness for C3 at the fresh banner `ALPHA` over the initial state. -/
theorem C3_amended_witness :
    (process_line initState (lit "ALPHA")).current_state
      = some { name := lit "ALPHA", code := lit "A" } ∧
    (process_line initState (lit "ALPHA")).current_lga = none := by
  have h := (C3_amended initState (lit "ALPHA") (by decide)).1 (by decide)
  rw [h]
  exact ⟨by decide, rfl⟩

/-- Claim C5, counterexample: the Level1 count of `get_statistics` counts
every stored Level1 entity, including ones with no Level2 children: after
banners `ALPHA` and `BETA` and a single LGA row under `BETA`, the reported
state total is 2 although only one state is non-empty.  (The statistics
carry no list of Level1 names at all.) -/
theorem C5_counterexample :
    (get_statistics (runEvents initState c5_events)).total_states = 2 ∧
    ((runEvents initState c5_events).extracted.states.filter
      (fun s => (runEvents initState c5_events).extracted.lgas.any
        (fun l => decide (l.state = s.name)))).length = 1 := by
  decide

/-- Claim C5 (corrected): the Level2 count does equal the sum over Level1
entities of the number of Level2 records referencing each of them (each
back-reference resolves to exactly one stored Level1), but the Level1
count is the raw length of the states list — empty Level1 entities
included — and no list of Level1 names is produced. -/
theorem C5_amended (es : List Event) :
    (get_statistics (runEvents initState es)).total_lgas
      = ((runEvents initState es).extracted.states.map
          (fun s => (runEvents initState es).extracted.lgas.countP
            (fun l => decide (l.state = s.name)))).sum ∧
    (get_statistics (runEvents initState es)).total_states
      = (runEvents initState es).extracted.states.length := by
  refine ⟨?_, rfl⟩
  have h := wf_runEvents wf_init es
  have hone : ∀ l ∈ (runEvents initState es).extracted.lgas,
      (runEvents initState es).extracted.states.countP
        (fun s => decide (l.state = s.name)) = 1 := by
    intro l hl
    apply countP_states_eq_one _ _ h.st_uniq
    exact h.lg_parent l hl
  rw [sum_countP_swap, List.map_congr_left hone, sum_map_one]
  rfl

/-- Claim C6 (confirmed): in the document produced by any run, every ward
record is contained in exactly one stored LGA record (matching its `lga`
and `state` back-references), and every LGA record belongs to exactly one
stored state record. -/
theorem C6_theorem (es : List Event) :
    (∀ w ∈ (runEvents initState es).extracted.wards,
       ∃! l, l ∈ (runEvents initState es).extracted.lgas ∧
         l.name = w.lga ∧ l.state = w.state) ∧
    (∀ l ∈ (runEvents initState es).extracted.lgas,
       ∃! s, s ∈ (runEvents initState es).extracted.states ∧ s.name = l.state) := by
  have h := wf_runEvents wf_init es
  constructor
  · intro w hw
    obtain ⟨l, hl, hn, hs⟩ := h.wd_parent w hw
    refine ⟨l, ⟨hl, hn, hs⟩, ?_⟩
    rintro l' ⟨hl', hn', hs'⟩
    by_contra hne
    refine List.Pairwise.forall ?_ h.lg_uniq hl' hl hne ⟨?_, ?_⟩
    · intro a b hab hba
      exact hab ⟨hba.1.symm, hba.2.symm⟩
    · rw [hn', hn]
    · rw [hs', hs]
  · intro l hl
    obtain ⟨s, hs, hname⟩ := h.lg_parent l hl
    refine ⟨s, ⟨hs, hname⟩, ?_⟩
    rintro s' ⟨hs', hname'⟩
    by_contra hne
    refine List.Pairwise.forall ?_ h.st_uniq hs' hs hne ?_
    · intro a b hab hba
      exact hab hba.symm
    · rw [hname', hname]

/-- Witness for C6 at a run containing one ward. -/
theorem C6_theorem_witness :
    ∃! l, l ∈ (runEvents initState c6_events).extracted.lgas ∧
      l.name = lit "LGA1" ∧ l.state = lit "ALPHA" :=
  (C6_theorem c6_events).1
    { name := lit "WARD1", code := lit "02", lga := lit "LGA1", state := lit "ALPHA" }
    (by decide)

/-- Claim C7 (confirmed): with no current Level1, any row is dropped with
the extractor state unchanged; with a current Level1 but no current
Level2, a Level3-shaped row (at least three cells, routed only to
`_add_ward`) is likewise dropped unchanged.  The embedding is total, so no
error is raised. -/
theorem C7_theorem (st : ExtractorState) (cells : List Str)
    (h : st.current_state = none ∨
      (st.current_lga = none ∧
        level3Shaped ((cells.map pyStrip).filter (fun c => !c.isEmpty)) = true)) :
    detect_lga_ward_data st cells = st := by
  rcases h with h | ⟨hlga, hshape⟩
  · exact detect_no_state st cells h
  · cases hcs : st.current_state with
    | none => exact detect_no_state st cells hcs
    | some cs =>
      simp only [detect_lga_ward_data, hcs]
      simp only [level3Shaped, Bool.and_eq_true, Bool.or_eq_true, decide_eq_true_eq,
        Bool.not_eq_true'] at hshape
      obtain ⟨h3, hcase⟩ := hshape
      rw [if_neg (by omega), if_neg (by omega)]
      rcases hcase with ⟨h1, hidx⟩ | ⟨h2, hnc⟩
      · rw [if_neg (by omega), if_pos h1, if_neg (by omega)]
        exact add_ward_no_lga st _ _ hlga
      · rw [if_pos h2]
        have hlc : (if looks_like_code
              (((cells.map pyStrip).filter (fun c => !c.isEmpty)).getD 1 []) = true
            then ((cells.map pyStrip).filter (fun c => !c.isEmpty)).getD 1 []
            else ([] : Str)) = [] := if_neg (by rw [hnc]; simp)
        rw [hlc]
        simp [add_ward_no_lga, hlga]

/-- Witness for C7: a ward-shaped row fed while `ALPHA` is current but no
LGA is current leaves the state unchanged. -/
theorem C7_theorem_witness : detect_lga_ward_data stAlpha c7_cells = stAlpha :=
  C7_theorem stAlpha c7_cells (Or.inr ⟨by decide, by decide⟩)

/-- Claim C8, counterexample: `_is_state_header` performs no digit check —
the line `ABCDEFGHIJ1` contains a digit, yet it is classified as a state
banner because its upper-case and letter ratios pass. -/
theorem C8_counterexample :
    ((lit "ABCDEFGHIJ1").any Char.isDigit = true) ∧
    is_state_header (lit "ABCDEFGHIJ1") = true := by
  decide

/-- Claim C8 (corrected): banner classification uses only the length and
ratio bounds.  A digit-bearing line can pass (`ABCDEFGHIJ1`) or fail
(`ABC1`) purely through the ratios, and the reference list is never
consulted — although each of its entries does pass the ratio test. -/
theorem C8_amended :
    is_state_header (lit "ABCDEFGHIJ1") = true ∧
    is_state_header (lit "ABC1") = false ∧
    NIGERIAN_STATES.all is_state_header = true := by
  decide

lemma detect_pair_twice_same (st : ExtractorState) (s : StateRec) (name code : Str)
    (hcs : st.current_state = some s) (hcl : st.current_lga = none)
    (hlooks : looks_like_code code = true)
    (hnt : pyStrip name = name) (hne : name ≠ [])
    (hct : pyStrip code = code) (hce : code ≠ [])
    (hfresh : lgaKey s.name name ∉ st.seen_lgas) :
    detect_lga_ward_data (detect_lga_ward_data st [name, code]) [name, code]
      = add_ward
          { st with
            extracted := { st.extracted with
              lgas := st.extracted.lgas ++ [{ name := name, code := code, state := s.name }] }
            current_lga := some { name := name, code := code, state := s.name }
            seen_lgas := st.seen_lgas ++ [lgaKey s.name name] } name code := by
  rw [detect_pair_fresh st s name code hcs hcl hlooks hnt hne hct hce hfresh]
  exact detect_pair_ward _ s { name := name, code := code, state := s.name } name code
    hcs rfl rfl rfl hlooks hnt hne hct hce

/-- Claim C4 (confirmed): from a state with a current Level1, no current
Level2, and a fresh key, feeding the same two-cell Level2 row twice
appends exactly one LGA record over the two feeds — the second feed does
not append a duplicate — and afterwards the current-LGA pointer is that
single record. -/
theorem C4_theorem (st : ExtractorState) (s : StateRec) (name code : Str)
    (hcs : st.current_state = some s) (hcl : st.current_lga = none)
    (hlooks : looks_like_code code = true)
    (hnt : pyStrip name = name) (hne : name ≠ [])
    (hct : pyStrip code = code) (hce : code ≠ [])
    (hfresh : lgaKey s.name name ∉ st.seen_lgas)
    (hkeys : ∀ l ∈ st.extracted.lgas, lgaKey l.state l.name ∈ st.seen_lgas) :
    (detect_lga_ward_data (detect_lga_ward_data st [name, code]) [name, code]).extracted.lgas
      = st.extracted.lgas ++ [{ name := name, code := code, state := s.name }] ∧
    (detect_lga_ward_data (detect_lga_ward_data st [name, code]) [name, code]).extracted.lgas.countP
      (fun l => decide (pyUpper l.name = pyUpper name ∧ pyUpper l.state = pyUpper s.name)) = 1 ∧
    (detect_lga_ward_data (detect_lga_ward_data st [name, code]) [name, code]).current_lga
      = some { name := name, code := code, state := s.name } := by
  have h12 := detect_pair_twice_same st s name code hcs hcl hlooks hnt hne hct hce hfresh
  have hz : st.extracted.lgas.countP
      (fun l => decide (pyUpper l.name = pyUpper name ∧ pyUpper l.state = pyUpper s.name)) = 0 := by
    apply List.countP_eq_zero.mpr
    intro l hl hp
    simp only [decide_eq_true_eq] at hp
    apply hfresh
    have hkeq : lgaKey s.name name = lgaKey l.state l.name := by
      simp only [lgaKey]
      rw [hp.1, hp.2]
    exact hkeq ▸ hkeys l hl
  refine ⟨?_, ?_, ?_⟩
  · rw [h12, (add_ward_fields _ name code).1]
  · rw [h12, (add_ward_fields _ name code).1]
    show (st.extracted.lgas
        ++ [({ name := name, code := code, state := s.name } : LgaRec)]).countP
      (fun l => decide (pyUpper l.name = pyUpper name ∧ pyUpper l.state = pyUpper s.name)) = 1
    rw [List.countP_append, hz]
    simp [List.countP_cons]
  · rw [h12, (add_ward_fields _ name code).2.1]

/-- Witness for C4: feeding `["LGA1", "01"]` twice under `ALPHA`. -/
theorem C4_theorem_witness :
    (detect_lga_ward_data (detect_lga_ward_data stAlpha [lit "LGA1", lit "01"])
        [lit "LGA1", lit "01"]).extracted.lgas
      = stAlpha.extracted.lgas
        ++ [{ name := lit "LGA1", code := lit "01", state := lit "ALPHA" }] ∧
    (detect_lga_ward_data (detect_lga_ward_data stAlpha [lit "LGA1", lit "01"])
        [lit "LGA1", lit "01"]).extracted.lgas.countP
      (fun l => decide (pyUpper l.name = pyUpper (lit "LGA1")
        ∧ pyUpper l.state = pyUpper (lit "ALPHA"))) = 1 ∧
    (detect_lga_ward_data (detect_lga_ward_data stAlpha [lit "LGA1", lit "01"])
        [lit "LGA1", lit "01"]).current_lga
      = some { name := lit "LGA1", code := lit "01", state := lit "ALPHA" } :=
  C4_theorem stAlpha { name := lit "ALPHA", code := lit "A" } (lit "LGA1") (lit "01")
    (by decide) (by decide) (by decide) (by decide) (by decide) (by decide) (by decide)
    (by decide) (by decide)

/-- Claim C9 (confirmed): the fallback code is the concatenation of the
upper-cased first characters of the name's whitespace-separated words
(`"NORTH EAST"` gives `"NE"`), and the sentinel `"XX"` when the name has
no usable words; as a pure function of the name it is deterministic. -/
theorem C9_theorem :
    generate_code (lit "NORTH EAST") = lit "NE" ∧
    (∀ name, generate_code name = fallback_initials name) ∧
    (∀ name, pySplit name = [] → generate_code name = lit "XX") := by
  refine ⟨by decide, ?_, ?_⟩
  · intro name
    simp only [generate_code, fallback_initials]
    cases hws : pySplit name with
    | nil => simp
    | cons w t =>
      have hnonnil : ∀ x ∈ w :: t, x ≠ [] := by
        intro x hx
        exact pySplit_ne_nil name x (hws ▸ hx)
      rw [flatten_initials (w :: t) hnonnil]
      simp
  · intro name h
    simp only [generate_code, h]
    rfl

/-- Witness for C9: a whitespace-only name falls back to `"XX"`. -/
theorem C9_theorem_witness : generate_code (lit "   ") = lit "XX" :=
  C9_theorem.2.2 (lit "   ") (by decide)

lemma detect_pair_twice_renew (st : ExtractorState) (s : StateRec) (name c1 c2 : Str)
    (hcs : st.current_state = some s) (hcl : st.current_lga = none)
    (hlooks1 : looks_like_code c1 = true) (hlooks2 : looks_like_code c2 = true)
    (hnt : pyStrip name = name) (hne : name ≠ [])
    (hct1 : pyStrip c1 = c1) (hce1 : c1 ≠ [])
    (hct2 : pyStrip c2 = c2) (hce2 : c2 ≠ [])
    (hnecode : c1 ≠ c2)
    (hfresh : lgaKey s.name name ∉ st.seen_lgas) :
    detect_lga_ward_data (detect_lga_ward_data st [name, c1]) [name, c2]
      = add_lga
          { st with
            extracted := { st.extracted with
              lgas := st.extracted.lgas ++ [{ name := name, code := c1, state := s.name }] }
            current_lga := some { name := name, code := c1, state := s.name }
            seen_lgas := st.seen_lgas ++ [lgaKey s.name name] } name c2 := by
  rw [detect_pair_fresh st s name c1 hcs hcl hlooks1 hnt hne hct1 hce1 hfresh]
  refine detect_pair_renew _ s name c2 hcs ?_ hlooks2 hnt hne hct2 hce2
  simp [is_new_lga, hnecode]

/-- Claim C10 (confirmed): the Level2 dedup key ignores the code — two
rows with the same name under the same Level1 but different codes yield a
single LGA record carrying the first-seen code, and the second row merely
re-points the current-LGA cursor at that record. -/
theorem C10_theorem (st : ExtractorState) (s : StateRec) (name c1 c2 : Str)
    (hcs : st.current_state = some s) (hcl : st.current_lga = none)
    (hlooks1 : looks_like_code c1 = true) (hlooks2 : looks_like_code c2 = true)
    (hnt : pyStrip name = name) (hne : name ≠ [])
    (hct1 : pyStrip c1 = c1) (hce1 : c1 ≠ [])
    (hct2 : pyStrip c2 = c2) (hce2 : c2 ≠ [])
    (hnecode : c1 ≠ c2)
    (hfresh : lgaKey s.name name ∉ st.seen_lgas)
    (hkeys : ∀ l ∈ st.extracted.lgas, lgaKey l.state l.name ∈ st.seen_lgas) :
    (detect_lga_ward_data (detect_lga_ward_data st [name, c1]) [name, c2]).extracted.lgas
      = st.extracted.lgas ++ [{ name := name, code := c1, state := s.name }] ∧
    (detect_lga_ward_data (detect_lga_ward_data st [name, c1]) [name, c2]).current_lga
      = some { name := name, code := c1, state := s.name } ∧
    (∀ l ∈ (detect_lga_ward_data (detect_lga_ward_data st [name, c1]) [name, c2]).extracted.lgas,
      pyUpper l.name = pyUpper name ∧ pyUpper l.state = pyUpper s.name → l.code = c1) := by
  have h12 := detect_pair_twice_renew st s name c1 c2 hcs hcl hlooks1 hlooks2
    hnt hne hct1 hce1 hct2 hce2 hnecode hfresh
  have hfind :
      (st.extracted.lgas
          ++ [({ name := name, code := c1, state := s.name } : LgaRec)]).find?
        (fun l => decide (pyUpper l.name = pyUpper name ∧ l.state = s.name))
      = some { name := name, code := c1, state := s.name } := by
    rw [find?_append_left_none]
    · exact List.find?_cons_of_pos _ (by simp)
    · intro a ha
      cases hq : (decide (pyUpper a.name = pyUpper name ∧ a.state = s.name)) with
      | false => rfl
      | true =>
        exfalso
        simp only [decide_eq_true_eq] at hq
        apply hfresh
        have hkeq : lgaKey s.name name = lgaKey a.state a.name := by
          simp only [lgaKey]
          rw [hq.1, hq.2]
        exact hkeq ▸ hkeys a ha
  have h3 := add_lga_seen
    { st with
      extracted := { st.extracted with
        lgas := st.extracted.lgas ++ [{ name := name, code := c1, state := s.name }] }
      current_lga := some { name := name, code := c1, state := s.name }
      seen_lgas := st.seen_lgas ++ [lgaKey s.name name] }
    s { name := name, code := c1, state := s.name } name c2
    hcs (List.mem_append_right _ (List.mem_singleton_self _)) hfind
  refine ⟨?_, ?_, ?_⟩
  · rw [h12, h3]
  · rw [h12, h3]
  · rw [h12, h3]
    intro l hl hmatch
    have hl' : l ∈ st.extracted.lgas ++ [{ name := name, code := c1, state := s.name }] := hl
    rcases List.mem_append.mp hl' with hl2 | hl2
    · exfalso
      apply hfresh
      have hkeq : lgaKey s.name name = lgaKey l.state l.name := by
        simp only [lgaKey]
        rw [hmatch.1, hmatch.2]
      exact hkeq ▸ hkeys l hl2
    · simp only [List.mem_singleton] at hl2
      subst hl2
      rfl

/-- Witness for C10: `["LGA1","01"]` then `["LGA1","02"]` under `ALPHA`. -/
theorem C10_theorem_witness :
    (detect_lga_ward_data (detect_lga_ward_data stAlpha [lit "LGA1", lit "01"])
        [lit "LGA1", lit "02"]).extracted.lgas
      = stAlpha.extracted.lgas
        ++ [{ name := lit "LGA1", code := lit "01", state := lit "ALPHA" }] ∧
    (detect_lga_ward_data (detect_lga_ward_data stAlpha [lit "LGA1", lit "01"])
        [lit "LGA1", lit "02"]).current_lga
      = some { name := lit "LGA1", code := lit "01", state := lit "ALPHA" } ∧
    (∀ l ∈ (detect_lga_ward_data (detect_lga_ward_data stAlpha [lit "LGA1", lit "01"])
        [lit "LGA1", lit "02"]).extracted.lgas,
      pyUpper l.name = pyUpper (lit "LGA1") ∧ pyUpper l.state = pyUpper (lit "ALPHA")
        → l.code = lit "01") :=
  C10_theorem stAlpha { name := lit "ALPHA", code := lit "A" } (lit "LGA1") (lit "01")
    (lit "02") (by decide) (by decide) (by decide) (by decide) (by decide) (by decide)
    (by decide) (by decide) (by decide) (by decide) (by decide) (by decide) (by decide)

end Xtractor
